import Mathlib

/-!
Shallow embedding of the PDF redaction service (`src/main.py`) and proofs
about its coordinate conversion, page grouping, redaction application and
request handlers.

Floating-point values of the source are modelled as rationals (`ℚ`); the
wrapped PDF engine (PyMuPDF) is modelled as an oracle `Doc` carrying the
page count, per-page heights and the per-page structured-text result, with
its documented behaviours (negative page indexing, the `document closed`
guard) reproduced where the handlers depend on them.
-/

namespace PdfService

/-- A bounding box in PDF-native coordinates, origin at the bottom-left:
the 4-tuple `span["bbox"] = (x0, y0, x1, y1)` of `main.py`. -/
structure PdfBBox where
  x0 : ℚ
  y0 : ℚ
  x1 : ℚ
  y1 : ℚ
deriving DecidableEq, Repr

/-- A bounding box in top-left-origin coordinates: the
`{"x": .., "y": .., "width": .., "height": ..}` dictionaries emitted by the
extractor (`main.py` lines 70-75). -/
structure TLBBox where
  x : ℚ
  y : ℚ
  width : ℚ
  height : ℚ
deriving DecidableEq, Repr

/-- Bottom-left → top-left conversion, exactly the expressions of
`main.py` lines 62-65: `x = bbox[0]`, `y = page_height - bbox[3]`,
`width = bbox[2] - bbox[0]`, `height = bbox[3] - bbox[1]`. -/
def toTopLeft (b : PdfBBox) (pageHeight : ℚ) : TLBBox :=
  { x := b.x0
    y := pageHeight - b.y1
    width := b.x1 - b.x0
    height := b.y1 - b.y0 }

/-- Top-left → bottom-left conversion, exactly the expressions of
`main.py` lines 154-157: `pdf_y = page_height - y - height` and
`rect = fitz.Rect(x, pdf_y, x + width, pdf_y + height)`. -/
def toPdf (b : TLBBox) (pageHeight : ℚ) : PdfBBox :=
  { x0 := b.x
    y0 := pageHeight - b.y - b.height
    x1 := b.x + b.width
    y1 := (pageHeight - b.y - b.height) + b.height }

theorem toPdf_toTopLeft (b : PdfBBox) (h : ℚ) :
    toPdf (toTopLeft b h) h = b := by
  cases b with
  | mk x0 y0 x1 y1 =>
    simp only [toTopLeft, toPdf, PdfBBox.mk.injEq]
    refine ⟨trivial, by ring, by ring, by ring⟩

/-- C3: for every page height `h > 0` and bounding box `b`, converting `b`
from PDF bottom-left coordinates to top-left coordinates (as the extractor
does) and back (as the applicator does) yields `b` again, each field within
`1e-6` (in fact exactly, since the arithmetic is exact). -/
theorem coord_roundtrip (h : ℚ) (b : PdfBBox) (hpos : 0 < h) :
    toPdf (toTopLeft b h) h = b ∧
    |(toPdf (toTopLeft b h) h).x0 - b.x0| ≤ 1 / 1000000 ∧
    |(toPdf (toTopLeft b h) h).y0 - b.y0| ≤ 1 / 1000000 ∧
    |(toPdf (toTopLeft b h) h).x1 - b.x1| ≤ 1 / 1000000 ∧
    |(toPdf (toTopLeft b h) h).y1 - b.y1| ≤ 1 / 1000000 := by
  have heq := toPdf_toTopLeft b h
  rw [heq]
  refine ⟨rfl, ?_, ?_, ?_, ?_⟩ <;> simp

theorem coord_roundtrip_witness :
    (0 : ℚ) < 792 ∧
    (toPdf (toTopLeft ⟨50, 700, 150, 715⟩ 792) 792 = ⟨50, 700, 150, 715⟩ ∧
     |(toPdf (toTopLeft (⟨50, 700, 150, 715⟩ : PdfBBox) 792) 792).x0 - (50 : ℚ)| ≤ 1 / 1000000 ∧
     |(toPdf (toTopLeft (⟨50, 700, 150, 715⟩ : PdfBBox) 792) 792).y0 - (700 : ℚ)| ≤ 1 / 1000000 ∧
     |(toPdf (toTopLeft (⟨50, 700, 150, 715⟩ : PdfBBox) 792) 792).x1 - (150 : ℚ)| ≤ 1 / 1000000 ∧
     |(toPdf (toTopLeft (⟨50, 700, 150, 715⟩ : PdfBBox) 792) 792).y1 - (715 : ℚ)| ≤ 1 / 1000000) :=
  ⟨by norm_num, coord_roundtrip 792 ⟨50, 700, 150, 715⟩ (by norm_num)⟩

/-- The `bbox` form field of a redaction item as the JSON payload carries
it. `main.py` line 141 reads `bbox = item.get('bbox', {})` and line 142
tests Python truthiness (`if not bbox: continue`), so an absent field and
an empty dictionary are both skipped; a non-empty dictionary may still be
missing any of the four coordinate keys. -/
inductive BboxField where
  | absent
  | emptyDict
  | dict (x y width height : Option ℚ)
deriving DecidableEq, Repr

/-- A caller-supplied redaction item (the JSON objects of the
`redaction_items` form field). `page` is `none` when the key is absent
(`item.get('page', 1)`, line 125); `type` and `id` are the optional labels
read at lines 143 and 161. -/
structure RedactionItem where
  page : Option Int
  bbox : BboxField
  type : Option String
  id : Option String
deriving DecidableEq, Repr

/-- Zero-based page index of an item: `item.get('page', 1) - 1`
(`main.py` line 125). -/
def pageIdx (it : RedactionItem) : Int :=
  it.page.getD 1 - 1

/-- One step of building `items_by_page` (`main.py` lines 126-128): append
`it` to the entry for key `k`, creating the entry at the end when the key
is new — exactly the insertion-order behaviour of a Python dict. -/
def addToGroups : List (Int × List RedactionItem) → Int → RedactionItem →
    List (Int × List RedactionItem)
  | [], k, it => [(k, [it])]
  | (k', l) :: rest, k, it =>
      if k' = k then (k', l ++ [it]) :: rest
      else (k', l) :: addToGroups rest k it

/-- The page grouper (`main.py` lines 123-128): fold the input items into
an insertion-ordered association list from zero-based page index to the
items of that page, in input order. -/
def itemsByPage (items : List RedactionItem) : List (Int × List RedactionItem) :=
  items.foldl (fun gs it => addToGroups gs (pageIdx it) it) []

/-- Value of the grouped mapping at key `k` (`items_by_page[k]`), `[]`
when the key is absent. -/
def valueAt : List (Int × List RedactionItem) → Int → List RedactionItem
  | [], _ => []
  | (k', l) :: rest, k => if k' = k then l else valueAt rest k

/-- Keys of the grouped mapping, in insertion order (Python dict key
order). -/
def keysOf (gs : List (Int × List RedactionItem)) : List Int :=
  gs.map Prod.fst

/-- Keys of the grouped mapping sorted ascending, used to state the
spec's sorted-order concatenation. -/
def sortedKeys (gs : List (Int × List RedactionItem)) : List Int :=
  (keysOf gs).insertionSort (· ≤ ·)

/-- Concatenation of the grouped mapping's sub-sequences, iterating page
indices in ascending order and each page's items in stored order. -/
def sortedConcat (gs : List (Int × List RedactionItem)) : List RedactionItem :=
  ((sortedKeys gs).map (valueAt gs)).flatten

theorem valueAt_addToGroups (gs : List (Int × List RedactionItem))
    (k j : Int) (it : RedactionItem) :
    valueAt (addToGroups gs k it) j =
      valueAt gs j ++ (if k = j then [it] else []) := by
  induction gs with
  | nil =>
      by_cases hkj : k = j <;> simp [addToGroups, valueAt, hkj]
  | cons g rest ih =>
      obtain ⟨k', l⟩ := g
      by_cases hk : k' = k
      · subst hk
        by_cases hj : k' = j
        · subst hj
          simp [addToGroups, valueAt]
        · simp [addToGroups, valueAt, hj]
      · by_cases hj : k' = j
        · subst hj
          have : ¬ k = k' := fun h => hk h.symm
          simp [addToGroups, valueAt, hk, this]
        · simp [addToGroups, valueAt, hk, hj, ih]

theorem valueAt_foldl (l : List RedactionItem) :
    ∀ (gs : List (Int × List RedactionItem)) (j : Int),
      valueAt (l.foldl (fun gs it => addToGroups gs (pageIdx it) it) gs) j =
        valueAt gs j ++ l.filter (fun it => pageIdx it = j) := by
  induction l with
  | nil => intro gs j; simp
  | cons it rest ih =>
      intro gs j
      simp only [List.foldl_cons, List.filter_cons]
      rw [ih, valueAt_addToGroups]
      by_cases h : pageIdx it = j
      · simp [h, List.append_assoc]
      · simp [h]

/-- The group stored for page index `j` is exactly the input-order
sub-sequence of items whose page index is `j`. -/
theorem valueAt_itemsByPage (l : List RedactionItem) (j : Int) :
    valueAt (itemsByPage l) j = l.filter (fun it => pageIdx it = j) := by
  simpa [valueAt] using valueAt_foldl l [] j

theorem keysOf_addToGroups (gs : List (Int × List RedactionItem))
    (k : Int) (it : RedactionItem) :
    keysOf (addToGroups gs k it) =
      if k ∈ keysOf gs then keysOf gs else keysOf gs ++ [k] := by
  induction gs with
  | nil => simp [addToGroups, keysOf]
  | cons g rest ih =>
      obtain ⟨k', l⟩ := g
      by_cases hk : k' = k
      · subst hk
        simp [addToGroups, keysOf]
      · have hne : ¬ k = k' := fun h => hk h.symm
        simp only [addToGroups, if_neg hk, keysOf, List.map_cons]
        rw [show List.map Prod.fst (addToGroups rest k it) =
              keysOf (addToGroups rest k it) from rfl, ih]
        by_cases hmem : k ∈ keysOf rest
        · have h1 : k ∈ k' :: List.map Prod.fst rest := List.mem_cons_of_mem _ hmem
          rw [if_pos hmem, if_pos h1]
          rfl
        · have h1 : k ∉ k' :: List.map Prod.fst rest := by
            intro hc
            rcases List.mem_cons.mp hc with h2 | h2
            · exact hne h2
            · exact hmem h2
          rw [if_neg hmem, if_neg h1, List.cons_append]
          rfl

theorem nodup_keysOf_foldl (l : List RedactionItem) :
    ∀ gs : List (Int × List RedactionItem), (keysOf gs).Nodup →
      (keysOf (l.foldl (fun gs it => addToGroups gs (pageIdx it) it) gs)).Nodup := by
  induction l with
  | nil => intro gs h; simpa using h
  | cons it rest ih =>
      intro gs h
      simp only [List.foldl_cons]
      apply ih
      rw [keysOf_addToGroups]
      by_cases hmem : pageIdx it ∈ keysOf gs
      · simpa [hmem] using h
      · simp [hmem, List.nodup_append, h]

/-- The grouped mapping never repeats a page index. -/
theorem nodup_keysOf_itemsByPage (l : List RedactionItem) :
    (keysOf (itemsByPage l)).Nodup := by
  simpa [itemsByPage] using nodup_keysOf_foldl l [] (by simp [keysOf])

theorem mem_keysOf_of_valueAt_ne_nil (gs : List (Int × List RedactionItem))
    (j : Int) (h : valueAt gs j ≠ []) : j ∈ keysOf gs := by
  induction gs with
  | nil => simp [valueAt] at h
  | cons g rest ih =>
      obtain ⟨k', l⟩ := g
      by_cases hj : k' = j
      · subst hj; simp [keysOf]
      · simp only [valueAt, if_neg hj] at h
        have hm := ih h
        simp only [keysOf, List.map_cons, List.mem_cons]
        exact Or.inr hm

theorem count_filter_pageIdx (x : RedactionItem) (j : Int)
    (l : List RedactionItem) :
    (l.filter (fun it => pageIdx it = j)).count x =
      if pageIdx x = j then l.count x else 0 := by
  induction l with
  | nil => simp
  | cons a rest ih =>
      by_cases ha : pageIdx a = j
      · by_cases hax : x = a
        · subst hax
          simp [List.filter_cons, ha, List.count_cons, ih]
        · simp [List.filter_cons, ha, List.count_cons, ih, hax]
      · by_cases hax : x = a
        · subst hax
          simp [List.filter_cons, ha, List.count_cons, ih]
        · simp [List.filter_cons, ha, List.count_cons, ih, hax]

theorem sum_map_ite_count (k : Int) (c : ℕ) (ks : List Int) (hnd : ks.Nodup) :
    ((ks.map (fun j => if k = j then c else 0)).sum) = if k ∈ ks then c else 0 := by
  induction ks with
  | nil => simp
  | cons j rest ih =>
      rcases List.nodup_cons.mp hnd with ⟨hj, hrest⟩
      by_cases hkj : k = j
      · subst hkj
        have hknot : k ∉ rest := hj
        simp [ih hrest, hknot]
      · simp [hkj, ih hrest, List.mem_cons]

theorem count_sortedConcat (l : List RedactionItem) (x : RedactionItem) :
    (sortedConcat (itemsByPage l)).count x = l.count x := by
  classical
  set gs := itemsByPage l with hgs
  have hperm : List.Perm (sortedKeys gs) (keysOf gs) := List.perm_insertionSort _ _
  have hnd : (sortedKeys gs).Nodup := hperm.nodup_iff.mpr (nodup_keysOf_itemsByPage l)
  have hcount : ∀ j : Int, (valueAt gs j).count x =
      if pageIdx x = j then l.count x else 0 := by
    intro j
    rw [hgs, valueAt_itemsByPage, count_filter_pageIdx]
  have hjoin : (sortedConcat gs).count x =
      (((sortedKeys gs).map (valueAt gs)).map (List.count x)).sum := by
    simp [sortedConcat, List.count_flatten]
  rw [hjoin, List.map_map]
  have : ((sortedKeys gs).map (List.count x ∘ valueAt gs)).sum =
      ((sortedKeys gs).map (fun j => if pageIdx x = j then l.count x else 0)).sum := by
    apply congrArg
    apply List.map_congr_left
    intro j _
    simp [Function.comp, hcount j]
  rw [this, sum_map_ite_count _ _ _ hnd]
  by_cases hx : l.count x = 0
  · simp [hx]
  · have hxl : x ∈ l := by
      rcases List.count_pos_iff.mp (Nat.pos_of_ne_zero hx) with h
      exact h
    have hne : valueAt gs (pageIdx x) ≠ [] := by
      rw [hgs, valueAt_itemsByPage]
      intro hnil
      have : x ∈ l.filter (fun it => pageIdx it = pageIdx x) := by
        simp [List.mem_filter, hxl]
      rw [hnil] at this
      simp at this
    have hmem : pageIdx x ∈ keysOf gs := mem_keysOf_of_valueAt_ne_nil _ _ hne
    have : pageIdx x ∈ sortedKeys gs := hperm.mem_iff.mpr hmem
    simp [this]

/-- Concatenating the groups in sorted page order is a permutation of the
input list. -/
theorem sortedConcat_perm (l : List RedactionItem) :
    (sortedConcat (itemsByPage l)).Perm l := by
  classical
  exact List.perm_iff_count.mpr (fun x => count_sortedConcat l x)

theorem map_length_keys (gs : List (Int × List RedactionItem))
    (hnd : (keysOf gs).Nodup) :
    (keysOf gs).map (fun k => (valueAt gs k).length) =
      gs.map (fun g => g.2.length) := by
  induction gs with
  | nil => simp [keysOf]
  | cons g rest ih =>
      obtain ⟨k, v⟩ := g
      simp only [keysOf, List.map_cons] at hnd ⊢
      rcases List.nodup_cons.mp hnd with ⟨hk, hrest⟩
      simp only [valueAt, if_pos rfl]
      congr 1
      have hstep : ∀ j ∈ (rest.map Prod.fst),
          ((if k = j then v else valueAt rest j).length) = (valueAt rest j).length := by
        intro j hj
        have : ¬ k = j := fun h => hk (h ▸ hj)
        simp [this]
      calc (rest.map Prod.fst).map
            (fun j => (if k = j then v else valueAt rest j).length)
          = (rest.map Prod.fst).map (fun j => (valueAt rest j).length) :=
            List.map_congr_left hstep
        _ = rest.map (fun g => g.2.length) := ih hrest

/-- The group sizes sum to the number of input items. -/
theorem sum_group_lengths (l : List RedactionItem) :
    ((itemsByPage l).map (fun g => g.2.length)).sum = l.length := by
  classical
  have hperm : List.Perm (sortedKeys (itemsByPage l)) (keysOf (itemsByPage l)) :=
    List.perm_insertionSort _ _
  have hlen : (sortedConcat (itemsByPage l)).length = l.length :=
    (sortedConcat_perm l).length_eq
  have h1 : (sortedConcat (itemsByPage l)).length =
      ((sortedKeys (itemsByPage l)).map
        (fun k => (valueAt (itemsByPage l) k).length)).sum := by
    simp only [sortedConcat, List.length_flatten, List.map_map]
    rfl
  have h2 : ((sortedKeys (itemsByPage l)).map
        (fun k => (valueAt (itemsByPage l) k).length)).sum =
      ((keysOf (itemsByPage l)).map
        (fun k => (valueAt (itemsByPage l) k).length)).sum :=
    (hperm.map _).sum_eq
  rw [← hlen, h1, h2, map_length_keys _ (nodup_keysOf_itemsByPage l)]

/-- C4: the page grouper drops no item — concatenating the grouped
mapping's sub-sequences (pages in ascending index order, items within a
page in stored order) is a permutation of the input; the group stored for
each page index is exactly the input-order sub-sequence of the items on
that page (so relative order within a page is preserved); the group sizes
sum to the input length; and the iteration order used for the
concatenation is sorted. -/
theorem grouping_complete (l : List RedactionItem) :
    (sortedConcat (itemsByPage l)).Perm l ∧
    (∀ j : Int, valueAt (itemsByPage l) j = l.filter (fun it => pageIdx it = j)) ∧
    ((itemsByPage l).map (fun g => g.2.length)).sum = l.length ∧
    (sortedKeys (itemsByPage l)).Sorted (· ≤ ·) := by
  refine ⟨sortedConcat_perm l, fun j => valueAt_itemsByPage l j,
    sum_group_lengths l, ?_⟩
  exact List.sorted_insertionSort _ _

/-- A text span as returned by the engine's `page.get_text("dict")`,
flattened over the block → line → span nesting in engine order. -/
structure EngineSpan where
  text : String
  bbox : PdfBBox
deriving DecidableEq, Repr

/-- The engine-side view of an opened document: page count, per-page
height (`page.rect.height`), per-page structured text
(`page.get_text("dict")`, which may fail inside the engine) and the
outcome of the flatten-and-write step (`doc.write()`, which may also
fail inside the engine). -/
structure Doc where
  pageCount : Nat
  pageHeight : Nat → ℚ
  textDict : Nat → Except String (List EngineSpan)
  write : Except String Unit

/-- Engine page lookup `pdf_doc[i]` (PyMuPDF `Document.load_page`,
relied on at `main.py` line 136): any integer index below `page_count`
is acceptable; a negative index has `page_count` added to it until it is
nonnegative — for a document with pages that normalization is
`i % page_count` — while an index at or above `page_count` raises
`page not in document`. A document with no pages can load no page (the
engine's normalization loop would not return there); no theorem below
touches that degenerate case. -/
def resolvePage (count : Nat) (i : Int) : Option Nat :=
  if (count : Int) ≤ i then none
  else if count = 0 then none
  else some (i % (count : Int)).toNat

/-- The redaction rectangle built for one item (`main.py` lines 147-157):
each missing coordinate defaults to `0` (`bbox.get(.., 0)`) and the box is
converted back to PDF coordinates. -/
def rectOf (pageHeight : ℚ) (x y width height : Option ℚ) : PdfBBox :=
  toPdf ⟨x.getD 0, y.getD 0, width.getD 0, height.getD 0⟩ pageHeight

/-- Rectangles marked for one item (`main.py` lines 140-160): a falsy
`bbox` (absent key or empty dict) is skipped, a dict yields one
`add_redact_annot` rectangle. -/
def marksForItem (pageHeight : ℚ) (it : RedactionItem) : List PdfBBox :=
  match it.bbox with
  | .dict x y w h => [rectOf pageHeight x y w h]
  | _ => []

/-- The apply loop of `main.py` lines 131-163 over the grouped mapping in
dict order: keys at or above the page count are skipped with a warning;
otherwise the page is loaded (normalizing a negative index as the engine
does; the load fails only in the degenerate no-page case) and every item
of the group is marked. Returns the list of `(page, rect)` marking calls
made and the error, if one was raised. -/
def applyMarksT (doc : Doc) : List (Int × List RedactionItem) →
    List (Nat × PdfBBox) × Option String
  | [] => ([], none)
  | g :: rest =>
    if (doc.pageCount : Int) ≤ g.1 then applyMarksT doc rest
    else
      match resolvePage doc.pageCount g.1 with
      | none => ([], some "page not in document")
      | some p =>
        let here := g.2.flatMap
          (fun it => (marksForItem (doc.pageHeight p) it).map (fun r => (p, r)))
        let res := applyMarksT doc rest
        (here ++ res.1, res.2)

/-- Pages of the grouped mapping for which the loop body actually runs, in
loop (dict-insertion) order: keys `≥ page_count` are skipped with a
warning; for every other key the page is loaded and the body runs (the
load can only fail in the degenerate no-page case, which aborts the loop
through the raised engine error). -/
def pagesProcessed (count : Nat) : List (Int × List RedactionItem) → List Int
  | [] => []
  | g :: rest =>
    if (count : Int) ≤ g.1 then pagesProcessed count rest
    else
      match resolvePage count g.1 with
      | none => []
      | some _ => g.1 :: pagesProcessed count rest

/-- Values of a list in order of first appearance — the key order of a
Python dict built by repeated insertion. -/
def firstOccurrences : List Int → List Int
  | [] => []
  | k :: ks => k :: (firstOccurrences ks).filter (fun j => j ≠ k)

theorem applyMarksT_ok (doc : Doc) (gs : List (Int × List RedactionItem))
    (h : ∀ g ∈ gs, 0 ≤ g.1) :
    applyMarksT doc gs =
      (gs.flatMap (fun g => if g.1 < (doc.pageCount : Int) then
          g.2.flatMap (fun it => (marksForItem (doc.pageHeight g.1.toNat) it).map
            (fun r => (g.1.toNat, r)))
        else []), none) := by
  induction gs with
  | nil => simp [applyMarksT]
  | cons g rest ih =>
    have hg : 0 ≤ g.1 := h g (List.mem_cons_self _ _)
    have hrest : ∀ g' ∈ rest, 0 ≤ g'.1 := fun g' hg' => h g' (List.mem_cons_of_mem _ hg')
    by_cases hle : (doc.pageCount : Int) ≤ g.1
    · have hlt : ¬ g.1 < (doc.pageCount : Int) := not_lt.mpr hle
      simp [applyMarksT, hle, hlt, ih hrest]
    · have hlt : g.1 < (doc.pageCount : Int) := not_le.mp hle
      have hcount : ¬ (doc.pageCount = 0) := by omega
      have hmod : g.1 % (doc.pageCount : Int) = g.1 := Int.emod_eq_of_lt hg hlt
      have hres : resolvePage doc.pageCount g.1 = some g.1.toNat := by
        simp [resolvePage, hle, hcount, hmod]
      simp [applyMarksT, hle, hres, ih hrest, hlt]

theorem mem_keysOf_foldl (l : List RedactionItem) :
    ∀ (gs : List (Int × List RedactionItem)) (j : Int),
      j ∈ keysOf (l.foldl (fun gs it => addToGroups gs (pageIdx it) it) gs) →
      j ∈ keysOf gs ∨ ∃ it ∈ l, pageIdx it = j := by
  induction l with
  | nil => intro gs j h; exact Or.inl (by simpa using h)
  | cons a rest ih =>
    intro gs j h
    simp only [List.foldl_cons] at h
    rcases ih _ j h with h1 | h1
    · rw [keysOf_addToGroups] at h1
      by_cases hmem : pageIdx a ∈ keysOf gs
      · rw [if_pos hmem] at h1; exact Or.inl h1
      · rw [if_neg hmem] at h1
        rcases List.mem_append.mp h1 with h2 | h2
        · exact Or.inl h2
        · right
          refine ⟨a, List.mem_cons_self _ _, ?_⟩
          have : j = pageIdx a := by simpa using h2
          exact this.symm
    · right
      rcases h1 with ⟨it, hit, hpi⟩
      exact ⟨it, List.mem_cons_of_mem _ hit, hpi⟩

/-- Every key of the grouped mapping is the page index of some input
item. -/
theorem keys_from_items (l : List RedactionItem) (j : Int)
    (h : j ∈ keysOf (itemsByPage l)) : ∃ it ∈ l, pageIdx it = j := by
  rcases mem_keysOf_foldl l [] j (by simpa [itemsByPage] using h) with h1 | h1
  · simp [keysOf] at h1
  · exact h1

theorem keys_nonneg (l : List RedactionItem) (hpos : ∀ it ∈ l, 0 ≤ pageIdx it) :
    ∀ g ∈ itemsByPage l, 0 ≤ g.1 := by
  intro g hg
  have hmem : g.1 ∈ keysOf (itemsByPage l) := List.mem_map_of_mem _ hg
  rcases keys_from_items l g.1 hmem with ⟨it, hit, hpi⟩
  exact hpi ▸ hpos it hit

theorem entry_mem_of_key_mem (gs : List (Int × List RedactionItem)) (k : Int)
    (h : k ∈ keysOf gs) : (k, valueAt gs k) ∈ gs := by
  induction gs with
  | nil => simp [keysOf] at h
  | cons g rest ih =>
    obtain ⟨k', v⟩ := g
    by_cases hk : k' = k
    · subst hk; simp [valueAt]
    · have hmem : k ∈ keysOf rest := by
        have h' : k ∈ k' :: keysOf rest := h
        rcases List.mem_cons.mp h' with h1 | h1
        · exact absurd h1.symm hk
        · exact h1
      simp only [valueAt, if_neg hk]
      exact List.mem_cons_of_mem _ (ih hmem)

/-- When every item has a nonnegative page index, the apply loop raises no
error. -/
theorem applyMarksT_no_error (doc : Doc) (l : List RedactionItem)
    (hpos : ∀ it ∈ l, 0 ≤ pageIdx it) :
    (applyMarksT doc (itemsByPage l)).2 = none := by
  rw [applyMarksT_ok doc _ (keys_nonneg l hpos)]

/-- Every item with a dict bbox and an in-range page index has its marking
call in the loop's output. -/
theorem mark_mem_applyMarksT (doc : Doc) (l : List RedactionItem)
    (hpos : ∀ i ∈ l, 0 ≤ pageIdx i)
    (it : RedactionItem) (hit : it ∈ l) (x y w hh : Option ℚ)
    (hbb : it.bbox = .dict x y w hh)
    (hlt : pageIdx it < (doc.pageCount : Int)) :
    ((pageIdx it).toNat,
      rectOf (doc.pageHeight (pageIdx it).toNat) x y w hh) ∈
      (applyMarksT doc (itemsByPage l)).1 := by
  rw [applyMarksT_ok doc _ (keys_nonneg l hpos)]
  have hkey : pageIdx it ∈ keysOf (itemsByPage l) := by
    apply mem_keysOf_of_valueAt_ne_nil
    rw [valueAt_itemsByPage]
    intro hnil
    have hmem : it ∈ l.filter (fun i => pageIdx i = pageIdx it) := by
      simp [List.mem_filter, hit]
    rw [hnil] at hmem
    simp at hmem
  have hentry : (pageIdx it, valueAt (itemsByPage l) (pageIdx it)) ∈ itemsByPage l :=
    entry_mem_of_key_mem _ _ hkey
  apply List.mem_flatMap.mpr
  refine ⟨(pageIdx it, valueAt (itemsByPage l) (pageIdx it)), hentry, ?_⟩
  simp only [if_pos hlt]
  apply List.mem_flatMap.mpr
  refine ⟨it, ?_, ?_⟩
  · rw [valueAt_itemsByPage]
    simp [List.mem_filter, hit]
  · simp [marksForItem, hbb]

/-- Every marking call of the loop targets a page below the page count. -/
theorem marks_pages_lt (doc : Doc) (l : List RedactionItem)
    (hpos : ∀ it ∈ l, 0 ≤ pageIdx it) :
    ∀ m ∈ (applyMarksT doc (itemsByPage l)).1, m.1 < doc.pageCount := by
  intro m hm
  rw [applyMarksT_ok doc _ (keys_nonneg l hpos)] at hm
  rcases List.mem_flatMap.mp hm with ⟨g, hg, hmem⟩
  by_cases hlt : g.1 < (doc.pageCount : Int)
  · rw [if_pos hlt] at hmem
    rcases List.mem_flatMap.mp hmem with ⟨it, _, hmem2⟩
    rcases List.mem_map.mp hmem2 with ⟨r, _, heq⟩
    have h0 : 0 ≤ g.1 := keys_nonneg l hpos g hg
    have hm1 : m.1 = g.1.toNat := by rw [← heq]
    rw [hm1]
    omega
  · rw [if_neg hlt] at hmem
    simp at hmem

/-- C5: with caller-supplied items whose page numbers are positive (the
data model's `page : positive integer`), a list containing an item whose
page number exceeds the page count is applied without error — no marking
call targets an out-of-range page (in particular none is made for the
oversized item), and every item with a dict bbox and an in-range page is
still marked. -/
theorem out_of_range_item_skipped (doc : Doc) (l : List RedactionItem)
    (itOver : RedactionItem)
    (hpos : ∀ it ∈ l, 0 ≤ pageIdx it)
    (hover : itOver ∈ l) (hbig : (doc.pageCount : Int) ≤ pageIdx itOver) :
    (applyMarksT doc (itemsByPage l)).2 = none ∧
    (∀ m ∈ (applyMarksT doc (itemsByPage l)).1,
      (m.1 : Int) < (doc.pageCount : Int) ∧ (m.1 : Int) ≠ pageIdx itOver) ∧
    (∀ it ∈ l, ∀ x y w hh, it.bbox = .dict x y w hh →
      pageIdx it < (doc.pageCount : Int) →
      ((pageIdx it).toNat, rectOf (doc.pageHeight (pageIdx it).toNat) x y w hh) ∈
        (applyMarksT doc (itemsByPage l)).1) := by
  refine ⟨applyMarksT_no_error doc l hpos, ?_, ?_⟩
  · intro m hm
    have h1 := marks_pages_lt doc l hpos m hm
    have h2 : (m.1 : Int) < (doc.pageCount : Int) := by exact_mod_cast h1
    exact ⟨h2, by omega⟩
  · intro it hit x y w hh hbb hlt
    exact mark_mem_applyMarksT doc l hpos it hit x y w hh hbb hlt

theorem out_of_range_item_skipped_witness :
    (∀ it ∈ [(⟨some 10, .dict (some 50) (some 77) (some 100) (some 15), none, none⟩ : RedactionItem),
             ⟨some 1, .dict (some 50) (some 77) (some 100) (some 15), none, none⟩], 0 ≤ pageIdx it) ∧
    (⟨some 10, .dict (some 50) (some 77) (some 100) (some 15), none, none⟩ : RedactionItem) ∈
      [(⟨some 10, .dict (some 50) (some 77) (some 100) (some 15), none, none⟩ : RedactionItem),
       ⟨some 1, .dict (some 50) (some 77) (some 100) (some 15), none, none⟩] ∧
    ((3 : Nat) : Int) ≤ pageIdx ⟨some 10, .dict (some 50) (some 77) (some 100) (some 15), none, none⟩ ∧
    ((applyMarksT ⟨3, fun _ => 792, fun _ => .ok [], .ok ()⟩ (itemsByPage
        [(⟨some 10, .dict (some 50) (some 77) (some 100) (some 15), none, none⟩ : RedactionItem),
         ⟨some 1, .dict (some 50) (some 77) (some 100) (some 15), none, none⟩])).2 = none ∧
     (∀ m ∈ (applyMarksT ⟨3, fun _ => 792, fun _ => .ok [], .ok ()⟩ (itemsByPage
        [(⟨some 10, .dict (some 50) (some 77) (some 100) (some 15), none, none⟩ : RedactionItem),
         ⟨some 1, .dict (some 50) (some 77) (some 100) (some 15), none, none⟩])).1,
       (m.1 : Int) < ((3 : Nat) : Int) ∧
       (m.1 : Int) ≠ pageIdx ⟨some 10, .dict (some 50) (some 77) (some 100) (some 15), none, none⟩) ∧
     (∀ it ∈ [(⟨some 10, .dict (some 50) (some 77) (some 100) (some 15), none, none⟩ : RedactionItem),
              ⟨some 1, .dict (some 50) (some 77) (some 100) (some 15), none, none⟩],
        ∀ x y w hh, it.bbox = .dict x y w hh →
        pageIdx it < ((3 : Nat) : Int) →
        ((pageIdx it).toNat, rectOf 792 x y w hh) ∈
          (applyMarksT ⟨3, fun _ => 792, fun _ => .ok [], .ok ()⟩ (itemsByPage
            [(⟨some 10, .dict (some 50) (some 77) (some 100) (some 15), none, none⟩ : RedactionItem),
             ⟨some 1, .dict (some 50) (some 77) (some 100) (some 15), none, none⟩])).1)) :=
  ⟨by decide, by decide, by decide,
    out_of_range_item_skipped ⟨3, fun _ => 792, fun _ => .ok [], .ok ()⟩ _ _
      (by decide) (by decide) (by decide)⟩

theorem keysOf_foldl_firstOccurrences (l : List RedactionItem) :
    ∀ gs : List (Int × List RedactionItem),
      keysOf (l.foldl (fun gs it => addToGroups gs (pageIdx it) it) gs) =
        keysOf gs ++ (firstOccurrences (l.map pageIdx)).filter
          (fun j => j ∉ keysOf gs) := by
  induction l with
  | nil =>
      intro gs
      simp [firstOccurrences]
  | cons a rest ih =>
    intro gs
    simp only [List.foldl_cons, List.map_cons, firstOccurrences, List.filter_cons]
    rw [ih, keysOf_addToGroups]
    by_cases hmem : pageIdx a ∈ keysOf gs
    · rw [if_pos hmem]
      have hda : (decide (pageIdx a ∉ keysOf gs)) = false := by simp [hmem]
      rw [hda]
      simp only [Bool.false_eq_true, if_false, List.filter_filter]
      congr 1
      apply List.filter_congr
      intro j _
      by_cases hj : j ∈ keysOf gs
      · simp [hj]
      · have hne : j ≠ pageIdx a := fun he => hj (he ▸ hmem)
        simp [hj, hne]
    · rw [if_neg hmem]
      have hda : (decide (pageIdx a ∉ keysOf gs)) = true := by simp [hmem]
      rw [hda]
      simp only [if_true, List.filter_filter, List.append_assoc, List.singleton_append]
      congr 2
      apply List.filter_congr
      intro j _
      by_cases hj : j ∈ keysOf gs
      · have : j ∈ keysOf gs ++ [pageIdx a] := List.mem_append.mpr (Or.inl hj)
        simp [hj, this]
      · by_cases hja : j = pageIdx a
        · have : j ∈ keysOf gs ++ [pageIdx a] :=
            List.mem_append.mpr (Or.inr (by simp [hja]))
          simp [hja, this]
        · have : j ∉ keysOf gs ++ [pageIdx a] := by
            intro hc
            rcases List.mem_append.mp hc with hc1 | hc1
            · exact hj hc1
            · exact hja (by simpa using hc1)
          simp [hj, hja, this]

/-- The key order of the grouped mapping is the first-appearance order of
the page indices of the input. -/
theorem keysOf_itemsByPage_eq (l : List RedactionItem) :
    keysOf (itemsByPage l) = firstOccurrences (l.map pageIdx) := by
  have h := keysOf_foldl_firstOccurrences l []
  rw [itemsByPage]
  rw [h]
  have : ∀ j ∈ firstOccurrences (l.map pageIdx),
      (decide (j ∉ keysOf ([] : List (Int × List RedactionItem)))) = true := by
    intro j _
    simp [keysOf]
  rw [List.filter_congr this]
  simp [keysOf]

theorem pagesProcessed_eq_filter (count : Nat)
    (gs : List (Int × List RedactionItem)) (h : ∀ g ∈ gs, 0 ≤ g.1) :
    pagesProcessed count gs = (keysOf gs).filter (fun k => k < (count : Int)) := by
  induction gs with
  | nil => simp [pagesProcessed, keysOf]
  | cons g rest ih =>
    have hg : 0 ≤ g.1 := h g (List.mem_cons_self _ _)
    have hrest : ∀ g' ∈ rest, 0 ≤ g'.1 := fun g' hg' => h g' (List.mem_cons_of_mem _ hg')
    by_cases hle : (count : Int) ≤ g.1
    · have hnlt : ¬ (g.1 < (count : Int)) := not_lt.mpr hle
      simp [pagesProcessed, hle, keysOf, hnlt, ih hrest]
    · have h1 : g.1 < (count : Int) := not_le.mp hle
      have hcount : ¬ (count = 0) := by omega
      have hmod : g.1 % (count : Int) = g.1 := Int.emod_eq_of_lt hg h1
      have hres : resolvePage count g.1 = some g.1.toNat := by
        simp [resolvePage, hle, hcount, hmod]
      simp [pagesProcessed, hle, hres, keysOf, h1, ih hrest]

/-- C7 counterexample: with input items on page 2 then page 1 and a
2-page document, the apply loop processes page index 1 before page index
0 — dict insertion order, not ascending page-index order. -/
theorem pages_sorted_counterexample :
    pagesProcessed 2 (itemsByPage
        [⟨some 2, .absent, none, none⟩, ⟨some 1, .absent, none, none⟩]) = [1, 0] ∧
    ¬ (pagesProcessed 2 (itemsByPage
        [⟨some 2, .absent, none, none⟩,
         ⟨some 1, .absent, none, none⟩])).Sorted (· ≤ ·) := by
  constructor
  · rfl
  · intro hs
    have h1 : pagesProcessed 2 (itemsByPage
        [(⟨some 2, .absent, none, none⟩ : RedactionItem),
         ⟨some 1, .absent, none, none⟩]) = [1, 0] := rfl
    rw [h1] at hs
    rcases List.sorted_cons.mp hs with ⟨hall, _⟩
    have := hall 0 (by simp)
    omega

/-- C7 (amended): the apply loop processes the in-range pages of the
grouped mapping in the order their page indices first appear in the input
item list (the Python dict's insertion order), not in ascending index
order. -/
theorem pages_processed_first_appearance (count : Nat) (l : List RedactionItem)
    (hpos : ∀ it ∈ l, 0 ≤ pageIdx it) :
    pagesProcessed count (itemsByPage l) =
      (firstOccurrences (l.map pageIdx)).filter (fun k => k < (count : Int)) := by
  rw [pagesProcessed_eq_filter count _ (keys_nonneg l hpos), keysOf_itemsByPage_eq]

theorem pages_processed_first_appearance_witness :
    (∀ it ∈ [(⟨some 2, .absent, none, none⟩ : RedactionItem),
             ⟨some 1, .absent, none, none⟩], 0 ≤ pageIdx it) ∧
    pagesProcessed 2 (itemsByPage
        [(⟨some 2, .absent, none, none⟩ : RedactionItem),
         ⟨some 1, .absent, none, none⟩]) =
      (firstOccurrences ([(⟨some 2, .absent, none, none⟩ : RedactionItem),
         ⟨some 1, .absent, none, none⟩].map pageIdx)).filter
        (fun k => k < ((2 : Nat) : Int)) :=
  ⟨by decide, pages_processed_first_appearance 2 _ (by decide)⟩

/-- C8: an item with no `page` key is grouped under page number 1
(zero-based index 0) and, when the document has at least one page and the
item carries a dict bbox, is marked on the document's first page rather
than rejected. -/
theorem missing_page_defaults_first (doc : Doc) (l : List RedactionItem)
    (it : RedactionItem) (hpos : ∀ i ∈ l, 0 ≤ pageIdx i) (hit : it ∈ l)
    (hnone : it.page = none) (hP : 1 ≤ doc.pageCount)
    (x y w hh : Option ℚ) (hbb : it.bbox = .dict x y w hh) :
    pageIdx it = 0 ∧
    it ∈ valueAt (itemsByPage l) 0 ∧
    (applyMarksT doc (itemsByPage l)).2 = none ∧
    (0, rectOf (doc.pageHeight 0) x y w hh) ∈ (applyMarksT doc (itemsByPage l)).1 := by
  have h0 : pageIdx it = 0 := by simp [pageIdx, hnone]
  refine ⟨h0, ?_, applyMarksT_no_error doc l hpos, ?_⟩
  · rw [valueAt_itemsByPage]
    simp [List.mem_filter, hit, h0]
  · have hlt : pageIdx it < (doc.pageCount : Int) := by rw [h0]; omega
    have hmem := mark_mem_applyMarksT doc l hpos it hit x y w hh hbb hlt
    rw [h0] at hmem
    simpa using hmem

theorem missing_page_defaults_first_witness :
    (∀ i ∈ [(⟨none, .dict (some 50) (some 77) (some 100) (some 15), none, none⟩ : RedactionItem)],
      0 ≤ pageIdx i) ∧
    (⟨none, .dict (some 50) (some 77) (some 100) (some 15), none, none⟩ : RedactionItem) ∈
      [(⟨none, .dict (some 50) (some 77) (some 100) (some 15), none, none⟩ : RedactionItem)] ∧
    (pageIdx (⟨none, .dict (some 50) (some 77) (some 100) (some 15), none, none⟩ : RedactionItem) = 0 ∧
     (⟨none, .dict (some 50) (some 77) (some 100) (some 15), none, none⟩ : RedactionItem) ∈
       valueAt (itemsByPage
         [(⟨none, .dict (some 50) (some 77) (some 100) (some 15), none, none⟩ : RedactionItem)]) 0 ∧
     (applyMarksT ⟨1, fun _ => 792, fun _ => .ok [], .ok ()⟩ (itemsByPage
         [(⟨none, .dict (some 50) (some 77) (some 100) (some 15), none, none⟩ : RedactionItem)])).2 = none ∧
     (0, rectOf 792 (some 50) (some 77) (some 100) (some 15)) ∈
       (applyMarksT ⟨1, fun _ => 792, fun _ => .ok [], .ok ()⟩ (itemsByPage
         [(⟨none, .dict (some 50) (some 77) (some 100) (some 15), none, none⟩ : RedactionItem)])).1) :=
  ⟨by decide, by decide,
    missing_page_defaults_first ⟨1, fun _ => 792, fun _ => .ok [], .ok ()⟩ _ _
      (by decide) (by decide) (by decide) (by decide) (some 50) (some 77) (some 100) (some 15)
      (by decide)⟩

/-- C9: an item with a zero or negative page number is not caught by the
single upper-bound check: its index `page - 1` is negative, the loop does
not skip it, and the engine's negative indexing selects the page counted
backward from the end (for `page = 0`, the last page), provided the index
does not underflow `-page_count`. -/
theorem negative_page_counts_from_end (doc : Doc) (p : Int)
    (x y w hh : Option ℚ) (hp : p ≤ 0)
    (hud : -(doc.pageCount : Int) ≤ p - 1) :
    pageIdx ⟨some p, .dict x y w hh, none, none⟩ = p - 1 ∧
    ¬ ((doc.pageCount : Int) ≤ p - 1) ∧
    applyMarksT doc (itemsByPage [⟨some p, .dict x y w hh, none, none⟩]) =
      ([(((doc.pageCount : Int) + (p - 1)).toNat,
         rectOf (doc.pageHeight (((doc.pageCount : Int) + (p - 1)).toNat)) x y w hh)],
       none) ∧
    (p = 0 → ((doc.pageCount : Int) + (p - 1)).toNat = doc.pageCount - 1) := by
  have h1 : pageIdx ⟨some p, .dict x y w hh, none, none⟩ = p - 1 := by
    simp [pageIdx]
  have hlt : p - 1 < (doc.pageCount : Int) := by omega
  refine ⟨h1, by omega, ?_, by intro hp0; omega⟩
  have hgrp : itemsByPage [(⟨some p, .dict x y w hh, none, none⟩ : RedactionItem)] =
      [(p - 1, [⟨some p, .dict x y w hh, none, none⟩])] := by
    simp [itemsByPage, addToGroups, h1]
  rw [hgrp]
  have hc1 : ¬ ((doc.pageCount : Int) ≤ p - 1) := by omega
  have hcount : ¬ (doc.pageCount = 0) := by omega
  have hmod : (p - 1) % (doc.pageCount : Int) = (doc.pageCount : Int) + (p - 1) := by
    have h1 : ((doc.pageCount : Int) + (p - 1)) % (doc.pageCount : Int) =
        (p - 1) % (doc.pageCount : Int) := by simp
    rw [← h1, Int.emod_eq_of_lt (by omega) (by omega)]
  have hres : resolvePage doc.pageCount (p - 1) =
      some ((doc.pageCount : Int) + (p - 1)).toNat := by
    simp [resolvePage, hc1, hcount, hmod]
  simp [applyMarksT, hres, hc1, marksForItem]

theorem negative_page_counts_from_end_witness :
    (0 : Int) ≤ 0 ∧
    -(((3 : Nat) : Int)) ≤ (0 : Int) - 1 ∧
    (pageIdx ⟨some 0, .dict (some 50) (some 77) (some 100) (some 15), none, none⟩ = (0 : Int) - 1 ∧
     ¬ ((((3 : Nat)) : Int) ≤ (0 : Int) - 1) ∧
     applyMarksT ⟨3, fun _ => 792, fun _ => .ok [], .ok ()⟩ (itemsByPage
         [⟨some 0, .dict (some 50) (some 77) (some 100) (some 15), none, none⟩]) =
       ([(((((3 : Nat)) : Int) + ((0 : Int) - 1)).toNat,
          rectOf 792 (some 50) (some 77) (some 100) (some 15))], none) ∧
     ((0 : Int) = 0 → ((((3 : Nat)) : Int) + ((0 : Int) - 1)).toNat = (3 : Nat) - 1)) :=
  ⟨by decide, by decide,
    negative_page_counts_from_end ⟨3, fun _ => 792, fun _ => .ok [], .ok ()⟩ 0
      (some 50) (some 77) (some 100) (some 15) (by decide) (by decide)⟩

/-- C10: an item on a valid page whose `bbox` form value is absent or an
empty dict is skipped — it produces no marking call, the request still
applies without error, and every other item with a dict bbox on an
in-range page keeps its marking call; and a present bbox with missing
coordinate keys is read with those coordinates as 0. -/
theorem falsy_bbox_skipped (doc : Doc) (l : List RedactionItem)
    (it : RedactionItem) (hpos : ∀ i ∈ l, 0 ≤ pageIdx i) (hit : it ∈ l)
    (hfalsy : it.bbox = .absent ∨ it.bbox = .emptyDict) :
    (∀ hgt : ℚ, marksForItem hgt it = []) ∧
    (applyMarksT doc (itemsByPage l)).2 = none ∧
    (∀ it' ∈ l, ∀ x y w hh, it'.bbox = .dict x y w hh →
      pageIdx it' < (doc.pageCount : Int) →
      ((pageIdx it').toNat, rectOf (doc.pageHeight (pageIdx it').toNat) x y w hh) ∈
        (applyMarksT doc (itemsByPage l)).1) ∧
    (∀ (hgt : ℚ) (x y w hh : Option ℚ),
      rectOf hgt x y w hh =
        rectOf hgt (some (x.getD 0)) (some (y.getD 0))
          (some (w.getD 0)) (some (hh.getD 0))) := by
  refine ⟨?_, applyMarksT_no_error doc l hpos, ?_, ?_⟩
  · intro hgt
    rcases hfalsy with hf | hf <;> simp [marksForItem, hf]
  · intro it' hit' x y w hh hbb hlt
    exact mark_mem_applyMarksT doc l hpos it' hit' x y w hh hbb hlt
  · intro hgt x y w hh
    simp [rectOf]

theorem falsy_bbox_skipped_witness :
    (∀ i ∈ [(⟨some 1, .emptyDict, none, none⟩ : RedactionItem),
            ⟨some 1, .dict (some 50) (some 77) (some 100) (some 15), none, none⟩],
      0 ≤ pageIdx i) ∧
    (⟨some 1, .emptyDict, none, none⟩ : RedactionItem) ∈
      [(⟨some 1, .emptyDict, none, none⟩ : RedactionItem),
       ⟨some 1, .dict (some 50) (some 77) (some 100) (some 15), none, none⟩] ∧
    ((⟨some 1, .emptyDict, none, none⟩ : RedactionItem).bbox = .absent ∨
     (⟨some 1, .emptyDict, none, none⟩ : RedactionItem).bbox = .emptyDict) ∧
    ((∀ hgt : ℚ, marksForItem hgt ⟨some 1, .emptyDict, none, none⟩ = []) ∧
     (applyMarksT ⟨1, fun _ => 792, fun _ => .ok [], .ok ()⟩ (itemsByPage
        [(⟨some 1, .emptyDict, none, none⟩ : RedactionItem),
         ⟨some 1, .dict (some 50) (some 77) (some 100) (some 15), none, none⟩])).2 = none ∧
     (∀ it' ∈ [(⟨some 1, .emptyDict, none, none⟩ : RedactionItem),
               ⟨some 1, .dict (some 50) (some 77) (some 100) (some 15), none, none⟩],
        ∀ x y w hh, it'.bbox = .dict x y w hh →
        pageIdx it' < (((1 : Nat)) : Int) →
        ((pageIdx it').toNat, rectOf 792 x y w hh) ∈
          (applyMarksT ⟨1, fun _ => 792, fun _ => .ok [], .ok ()⟩ (itemsByPage
            [(⟨some 1, .emptyDict, none, none⟩ : RedactionItem),
             ⟨some 1, .dict (some 50) (some 77) (some 100) (some 15), none, none⟩])).1) ∧
     (∀ (hgt : ℚ) (x y w hh : Option ℚ),
        rectOf hgt x y w hh =
          rectOf hgt (some (x.getD 0)) (some (y.getD 0))
            (some (w.getD 0)) (some (hh.getD 0)))) :=
  ⟨by decide, by decide, by decide,
    falsy_bbox_skipped ⟨1, fun _ => 792, fun _ => .ok [], .ok ()⟩ _ _
      (by decide) (by decide) (by decide)⟩

/-- A text block emitted by the extractor (`main.py` lines 67-76):
trimmed text, 1-based page number, top-left bbox. -/
structure TextSpan where
  text : String
  page : Nat
  bbox : TLBBox
deriving DecidableEq, Repr

/-- Processing of one engine span (`main.py` lines 57-77): strip the
text, drop it when empty, otherwise append a text block with 1-based page
number and converted bbox and extend the running full text with the text
and a space. -/
def processSpan (p : Nat) (hgt : ℚ) (acc : List TextSpan × String)
    (sp : EngineSpan) : List TextSpan × String :=
  let t := sp.text.trim
  if t = "" then acc
  else (acc.1 ++ [⟨t, p + 1, toTopLeft sp.bbox hgt⟩], acc.2 ++ t ++ " ")

/-- The extraction loop (`main.py` lines 47-77): for each page index in
order, fetch the structured text — which may raise inside the engine —
and process its spans. -/
def extractLoop (doc : Doc) : Except String (List TextSpan × String) :=
  (List.range doc.pageCount).foldlM
    (fun acc p => do
      let sps ← doc.textDict p
      pure (sps.foldl (processSpan p (doc.pageHeight p)) acc))
    ([], "")

/-- Response of the `/extract-text-with-positions` handler: the 200 JSON
success body or the 500 error detail. -/
inductive ExtractOutcome where
  | ok200 (full_text : String) (text_blocks : List TextSpan) (total_pages : Nat)
  | err500 (detail : String)
deriving DecidableEq, Repr

/-- PyMuPDF's closed-document guard: once `Document.close()` has run,
reading `page_count` raises `ValueError("document closed")` — modelled
from the engine's documented behaviour, on which `main.py` line 87
stumbles. -/
def readPageCount (doc : Doc) (isClosed : Bool) : Except String Nat :=
  if isClosed then .error "document closed" else .ok doc.pageCount

/-- The `/extract-text-with-positions` handler (`main.py` lines 26-92) as
a function of the engine's open result. The second component is the final
state of the document handle: `none` when no document was opened,
otherwise `some closed`. The code closes the document at line 79 and only
afterwards reads `pdf_doc.page_count` for the response dict (line 87);
any exception lands in the bare `except` (line 90), which returns a 500
without closing anything. -/
def extractHandler (openR : Except String Doc) : ExtractOutcome × Option Bool :=
  match openR with
  | .error e => (.err500 ("Text extraction failed: " ++ e), none)
  | .ok doc =>
    match extractLoop doc with
    | .error e => (.err500 ("Text extraction failed: " ++ e), some false)
    | .ok (blocks, full) =>
      match readPageCount doc true with
      | .error e => (.err500 ("Text extraction failed: " ++ e), some true)
      | .ok n => (.ok200 full.trim blocks n, some true)

/-- Response of the `/redact-pdf` handler. -/
inductive RedactOutcome where
  | ok200pdf (marks : List (Nat × PdfBBox))
  | err400 (detail : String)
  | err500 (detail : String)
deriving DecidableEq, Repr

/-- Observable effects of one `/redact-pdf` request: the response,
whether the engine was asked to open the PDF, the final document handle
state (`none` when never opened) and the marking calls made. -/
structure RedactRun where
  response : RedactOutcome
  openCalled : Bool
  docClosed : Option Bool
  markCalls : List (Nat × PdfBBox)
deriving DecidableEq, Repr

/-- The `/redact-pdf` handler (`main.py` lines 94-188) as a function of
the `json.loads` outcome on the `redaction_items` form value and of the
engine's open result. `json.loads` runs first (line 111): a parse error
reaches the `json.JSONDecodeError` branch (line 184) and returns 400
before the upload is read, before the PDF is opened and before any
engine call. After a successful open the grouped items are applied; an
engine error while marking propagates to the generic `except` (line 186)
as a 500 with the document left open. On success the marks are flattened
and the bytes written (lines 166-170, modelled as the document's one
`write` outcome); a failure there also reaches the generic `except` with
the document still open, since `pdf_doc.close()` (line 171) only runs
after `pdf_doc.write()`; otherwise the document is closed and the PDF
returned. -/
def redactHandler (parseR : Except String (List RedactionItem))
    (openR : Except String Doc) : RedactRun :=
  match parseR with
  | .error e =>
      { response := .err400 ("Invalid JSON in redaction_items: " ++ e)
        openCalled := false
        docClosed := none
        markCalls := [] }
  | .ok items =>
    match openR with
    | .error e =>
        { response := .err500 ("Redaction failed: " ++ e)
          openCalled := true
          docClosed := none
          markCalls := [] }
    | .ok doc =>
      let res := applyMarksT doc (itemsByPage items)
      match res.2 with
      | some e =>
          { response := .err500 ("Redaction failed: " ++ e)
            openCalled := true
            docClosed := some false
            markCalls := res.1 }
      | none =>
        match doc.write with
        | .error e =>
            { response := .err500 ("Redaction failed: " ++ e)
              openCalled := true
              docClosed := some false
              markCalls := res.1 }
        | .ok _ =>
            { response := .ok200pdf res.1
              openCalled := true
              docClosed := some true
              markCalls := res.1 }

/-- C1 is violated by the code: even when the engine opens the upload and
text extraction completes, the handler never returns the 200 success
response. `pdf_doc.page_count` is read for the response only after
`pdf_doc.close()` (lines 79 and 87), the engine raises
`document closed`, and the bare `except` turns the request into a 500. -/
theorem extract_success_unreachable (doc : Doc) (blocks : List TextSpan)
    (full : String) (h : extractLoop doc = .ok (blocks, full)) :
    extractHandler (.ok doc) =
      (.err500 "Text extraction failed: document closed", some true) := by
  simp [extractHandler, h, readPageCount]

theorem extract_success_unreachable_witness :
    extractLoop ⟨1, fun _ => 792, fun _ => .ok [], .ok ()⟩ = .ok ([], "") ∧
    extractHandler (.ok ⟨1, fun _ => 792, fun _ => .ok [], .ok ()⟩) =
      (.err500 "Text extraction failed: document closed", some true) :=
  ⟨by rfl, extract_success_unreachable _ _ _ (by rfl)⟩

/-- C2 is violated by the code: neither handler has a `finally`, so when
the engine raises after a successful open — during text extraction in the
extract handler, or during `pdf_doc.write()` in the redaction handler
(which runs at line 170, before the `close()` of line 171) — the handler
returns its 500 error with the document still open. -/
theorem doc_not_closed_on_error :
    (∀ (doc : Doc) (e : String), extractLoop doc = .error e →
      (extractHandler (.ok doc)).2 = some false) ∧
    (∀ (items : List RedactionItem) (doc : Doc) (e : String),
      (applyMarksT doc (itemsByPage items)).2 = none →
      doc.write = .error e →
      (redactHandler (.ok items) (.ok doc)).docClosed = some false) := by
  constructor
  · intro doc e h
    simp [extractHandler, h]
  · intro items doc e hmarks hwrite
    simp [redactHandler, hmarks, hwrite]

theorem doc_not_closed_on_error_witness :
    extractLoop ⟨1, fun _ => 792, fun _ => .error "cannot extract", .ok ()⟩ =
      .error "cannot extract" ∧
    (extractHandler (.ok ⟨1, fun _ => 792, fun _ => .error "cannot extract", .ok ()⟩)).2 =
      some false ∧
    (applyMarksT ⟨1, fun _ => 792, fun _ => .ok [], .error "cannot save"⟩
        (itemsByPage [⟨some 1, .dict (some 1) (some 1) (some 1) (some 1), none, none⟩])).2 =
      none ∧
    (⟨1, fun _ => 792, fun _ => .ok [], .error "cannot save"⟩ : Doc).write =
      .error "cannot save" ∧
    (redactHandler
        (.ok [⟨some 1, .dict (some 1) (some 1) (some 1) (some 1), none, none⟩])
        (.ok ⟨1, fun _ => 792, fun _ => .ok [], .error "cannot save"⟩)).docClosed =
      some false :=
  ⟨by rfl, doc_not_closed_on_error.1 _ "cannot extract" (by rfl),
   by rfl, by rfl,
   doc_not_closed_on_error.2 _ _ "cannot save" (by rfl) (by rfl)⟩

/-- C6: an unparseable `redaction_items` form value is rejected with a
400 validation error and no engine call is made — the PDF is never
opened and no redaction is marked. -/
theorem malformed_json_rejected (e : String) (openR : Except String Doc) :
    redactHandler (.error e) openR =
      { response := .err400 ("Invalid JSON in redaction_items: " ++ e)
        openCalled := false
        docClosed := none
        markCalls := [] } := rfl

end PdfService
